import Mathlib

/-!
Shallow embedding of `src/intents.py` from the repository
"Speak to Infrastructure" (natural-language → Terraform generator),
together with theorems about its intent-parsing core.

Strings are modelled as `List Char`; Python's regex word-boundary
matching, `str.split()`, `str.lower()` and `str.capitalize()` are
embedded explicitly for the ASCII inputs the parser works on.
-/

namespace SpeakInfra

abbrev Chars := List Char

/-- ASCII word characters, the `\w` class used by the regex boundary. -/
def isWordChar (c : Char) : Bool := c.isAlphanum || c == '_'

/-- Whether `text[j]` is a word character; out of range counts as non-word. -/
def wordAt (text : Chars) (j : Nat) : Bool :=
  match text.get? j with
  | some c => isWordChar c
  | none => false

/-- The regex word boundary holds between offsets `j-1` and `j` of `text`:
exactly one of the two adjacent positions holds a word character
(a position outside the text counts as non-word). -/
def boundaryAt (text : Chars) (j : Nat) : Bool :=
  (if j = 0 then false else wordAt text (j - 1)) != wordAt text j

/-- The literal pattern `kw` bracketed by word boundaries on both sides
(as produced by `rf'\b{re.escape(keyword)}\b'`) matches `text` at offset `i`. -/
def matchAt (kw text : Chars) (i : Nat) : Bool :=
  ((text.drop i).take kw.length == kw) && boundaryAt text i &&
    boundaryAt text (i + kw.length)

/-- `re.finditer`: successive non-overlapping matches scanning left to
right, resuming after each match at its end. The fuel argument bounds the
number of scan steps; `findIter` supplies enough fuel to scan the
whole text. -/
def findIterAux (kw text : Chars) : Nat → Nat → List Nat
  | 0, _ => []
  | fuel + 1, i =>
    if matchAt kw text i then i :: findIterAux kw text fuel (i + kw.length)
    else findIterAux kw text fuel (i + 1)

/-- Start offsets of the matches `re.finditer` yields for `kw` in `text`. -/
def findIter (kw text : Chars) : List Nat :=
  findIterAux kw text (text.length + 1) 0

/-- `re.search`: some word-boundary match of `kw` exists in `text`. -/
def searchWord (kw text : Chars) : Bool :=
  (List.range (text.length + 1)).any (fun i => matchAt kw text i)

/-- Python `str.lower()` (ASCII). -/
def lowerStr (s : Chars) : Chars := s.map Char.toLower

/-- Python whitespace characters recognised by `str.split()` (ASCII). -/
def isSpaceCh (c : Char) : Bool :=
  c == ' ' || c == '\t' || c == '\n' || c == '\r' ||
    c == Char.ofNat 11 || c == Char.ofNat 12

/-- Helper for `splitWs`: `acc` holds the current word, reversed. -/
def splitWsAux : Chars → Chars → List Chars
  | [], acc => if acc.isEmpty then [] else [acc.reverse]
  | c :: cs, acc =>
    if isSpaceCh c then
      if acc.isEmpty then splitWsAux cs [] else acc.reverse :: splitWsAux cs []
    else splitWsAux cs (c :: acc)

/-- Python `str.split()` with no argument: split on runs of whitespace,
yielding no empty parts. -/
def splitWs (s : Chars) : List Chars := splitWsAux s []

/-- Python `l[-n:]`: the final `n` elements (the whole list if shorter). -/
def lastN (l : List α) (n : Nat) : List α := l.drop (l.length - n)

/-- The apostrophe character (code 39). -/
def apos : Char := Char.ofNat 39

/-- The alternation words of the two entries of `NEGATION_PATTERNS`:
`\b(no|not|without|don't|dont|never|exclude)\b` and `\b(except|excluding)\b`. -/
def NEGATION_CUES : List Chars :=
  ["no".data, "not".data, "without".data, ['d', 'o', 'n', apos, 't'],
   "dont".data, "never".data, "exclude".data, "except".data, "excluding".data]

/-- `re.search(pattern, word, re.IGNORECASE)` over both negation patterns:
some cue word occurs inside `w` at word boundaries, case-insensitively. -/
def hasCue (w : Chars) : Bool :=
  NEGATION_CUES.any (fun cue => searchWord cue (lowerStr w))

/-- `IntentParser.has_negation`: take the text before the keyword,
split it on whitespace, keep the last five tokens, and test each token
against the negation patterns. -/
def has_negation (text : Chars) (keyword_position : Nat) : Bool :=
  (lastN (splitWs (text.take keyword_position)) 5).any hasCue

/-- One entry of `INTENT_CATEGORIES`: keywords plus per-cloud resources. -/
structure CategoryData where
  keywords : List String
  cloud_resources : List (String × List String)
deriving DecidableEq, Repr

/-- The `INTENT_CATEGORIES` table of `src/intents.py`, in declaration
order (Python dicts preserve insertion order). -/
def INTENT_CATEGORIES : List (String × CategoryData) := [
  ("networking",
    { keywords := ["vpc", "vnet", "network", "subnet", "gateway", "load balancer",
                   "alb", "nlb", "vpn", "dns", "route", "peering"],
      cloud_resources :=
        [("aws", ["vpc", "subnet", "internet_gateway", "nat_gateway", "route_table",
                  "elastic_load_balancer", "application_load_balancer"]),
         ("azure", ["virtual_network", "subnet", "vpn_gateway", "load_balancer"]),
         ("gcp", ["compute_network", "compute_subnetwork", "compute_vpn_gateway",
                  "compute_forwarding_rule"])] }),
  ("compute",
    { keywords := ["server", "instance", "ec2", "vm", "virtual machine", "compute",
                   "container", "auto scaling", "asg", "vmss", "small", "medium", "large"],
      cloud_resources :=
        [("aws", ["ec2_instance", "autoscaling_group", "launch_template"]),
         ("azure", ["linux_virtual_machine", "windows_virtual_machine",
                    "virtual_machine_scale_set"]),
         ("gcp", ["compute_instance", "compute_instance_group_manager"])] }),
  ("database",
    { keywords := ["database", "db", "rds", "sql", "mysql", "postgres", "postgresql",
                   "dynamodb", "cosmosdb", "firestore", "mongodb", "mariadb"],
      cloud_resources :=
        [("aws", ["db_instance", "dynamodb_table", "rds_cluster"]),
         ("azure", ["mssql_server", "mysql_server", "postgresql_server",
                    "cosmosdb_account"]),
         ("gcp", ["sql_database_instance", "firestore_database"])] }),
  ("storage",
    { keywords := ["storage", "bucket", "blob", "s3", "ebs", "disk", "volume",
                   "file storage", "object storage"],
      cloud_resources :=
        [("aws", ["s3_bucket", "ebs_volume", "efs_file_system"]),
         ("azure", ["storage_account", "storage_blob", "managed_disk"]),
         ("gcp", ["storage_bucket", "compute_disk"])] }),
  ("security",
    { keywords := ["iam", "role", "policy", "security group", "firewall", "acl",
                   "kms", "key vault", "secrets", "certificate", "strict"],
      cloud_resources :=
        [("aws", ["iam_role", "iam_policy", "security_group", "kms_key"]),
         ("azure", ["role_assignment", "key_vault", "network_security_group"]),
         ("gcp", ["project_iam_binding", "compute_firewall", "kms_crypto_key"])] }),
  ("monitoring",
    { keywords := ["monitor", "monitoring", "logs", "alerts", "metrics", "cloudwatch",
                   "log analytics", "stackdriver"],
      cloud_resources :=
        [("aws", ["cloudwatch_log_group", "cloudwatch_metric_alarm", "sns_topic"]),
         ("azure", ["monitor_metric_alert", "log_analytics_workspace"]),
         ("gcp", ["monitoring_alert_policy", "logging_metric"])] }),
  ("container",
    { keywords := ["container", "docker", "kubernetes", "k8s", "ecs", "eks", "aks",
                   "gke", "fargate", "pod", "deployment"],
      cloud_resources :=
        [("aws", ["ecs_cluster", "ecs_service", "eks_cluster"]),
         ("azure", ["kubernetes_cluster", "container_group"]),
         ("gcp", ["container_cluster", "container_node_pool"])] }),
  ("serverless",
    { keywords := ["lambda", "function", "serverless", "cloud function",
                   "azure function"],
      cloud_resources :=
        [("aws", ["lambda_function", "api_gateway_rest_api"]),
         ("azure", ["function_app"]),
         ("gcp", ["cloudfunctions_function"])] }),
  ("provider",
    { keywords := ["aws", "amazon web services", "azure", "microsoft azure",
                   "gcp", "google cloud", "google cloud platform"],
      cloud_resources := [] }),
  ("os",
    { keywords := ["ubuntu", "windows", "amazon linux", "centos", "rhel",
                   "debian", "fedora"],
      cloud_resources := [] })]

/-- The `ACTION_VERBS` table of `src/intents.py`, in declaration order. -/
def ACTION_VERBS : List (String × List String) := [
  ("create", ["create", "deploy", "launch", "provision", "setup", "set up", "add", "build"]),
  ("delete", ["delete", "remove", "destroy", "terminate", "tear down"]),
  ("modify", ["modify", "update", "change", "edit", "configure"]),
  ("query", ["show", "list", "describe", "get", "what", "which"])]

/-- `IntentParser.extract_action`: the first action (in table order) one of
whose verbs occurs as a whole word in the lowercased sentence; defaults
to `"create"`. -/
def extract_action (sentence : Chars) : String :=
  let sentence_lower := lowerStr sentence
  match ACTION_VERBS.find? (fun e => e.2.any (fun v => searchWord v.data sentence_lower)) with
  | some e => e.1
  | none => "create"

/-- The result dictionary built by `IntentParser.detect_intents`.
`categories` models the Python dict as an association list in insertion
order; `negated_categories` models the Python set as a duplicate-free list. -/
structure Detected where
  action : String
  categories : List (String × List String)
  negated_categories : List String
  raw_sentence : Chars
deriving DecidableEq, Repr

/-- `detected["categories"][category].append(keyword)` preceded by the
creation of the entry when absent and the duplicate check of the code. -/
def addKeyword : List (String × List String) → String → String → List (String × List String)
  | [], cat, kw => [(cat, [kw])]
  | (c, kws) :: rest, cat, kw =>
    if c = cat then (c, if kw ∈ kws then kws else kws ++ [kw]) :: rest
    else (c, kws) :: addKeyword rest cat kw

/-- `detected["negated_categories"].add(category)` on the set model. -/
def addNegated (l : List String) (cat : String) : List String :=
  if cat ∈ l then l else l ++ [cat]

/-- The body of the innermost loop of `detect_intents`, handling one
regex match of `kw` at offset `p`. -/
def applyMatch (low : Chars) (cat kw : String) (d : Detected) (p : Nat) : Detected :=
  if has_negation low p then
    { d with negated_categories := addNegated d.negated_categories cat }
  else
    { d with categories := addKeyword d.categories cat kw }

/-- The loop of `detect_intents` over all matches of one keyword. -/
def processKeyword (low : Chars) (cat : String) (d : Detected) (kw : String) : Detected :=
  (findIter kw.data low).foldl (applyMatch low cat kw) d

/-- The loop of `detect_intents` over one category's keywords. -/
def processCategory (low : Chars) (d : Detected) (e : String × CategoryData) : Detected :=
  e.2.keywords.foldl (processKeyword low e.1) d

/-- `IntentParser.detect_intents`. -/
def detect_intents (sentence : Chars) : Detected :=
  let sentence_lower := lowerStr sentence
  INTENT_CATEGORIES.foldl (processCategory sentence_lower)
    { action := extract_action sentence, categories := [],
      negated_categories := [], raw_sentence := sentence }

/-- `IntentParser.validate_intent`. -/
def validate_intent (d : Detected) : Bool :=
  if d.negated_categories.any (fun c => (d.categories.map Prod.fst).contains c) then
    false
  else if d.categories.isEmpty then
    false
  else
    true

/-- Python `needle in hay` on strings: substring containment. -/
def containsSub (needle hay : Chars) : Bool :=
  (List.range (hay.length + 1)).any (fun i => (hay.drop i).take needle.length == needle)

/-- `IntentParser.normalize_provider`. -/
def normalize_provider (d : Detected) : Option String :=
  match List.lookup "provider" d.categories with
  | none => none
  | some [] => none
  | some (k :: _) =>
    let keyword := lowerStr k.data
    if containsSub "aws".data keyword || containsSub "amazon".data keyword then
      some "aws"
    else if containsSub "azure".data keyword || containsSub "microsoft".data keyword then
      some "azure"
    else if containsSub "gcp".data keyword || containsSub "google".data keyword then
      some "gcp"
    else
      none

/-- Python `str.capitalize()`: first character uppercased, rest lowercased. -/
def capitalize (s : Chars) : Chars :=
  match s with
  | [] => []
  | c :: cs => c.toUpper :: cs.map Char.toLower

/-- `IntentParser.extract_os`. -/
def extract_os (d : Detected) : Option String :=
  match List.lookup "os" d.categories with
  | none => none
  | some [] => none
  | some (os₀ :: _) =>
    if os₀ = "amazon linux" then some "Amazon Linux"
    else if os₀ = "rhel" then some "RHEL"
    else some (String.mk (capitalize os₀.data))

/-- The keyword has a non-negated regex match in the lowercased sentence
(the condition under which `detect_intents` records it). -/
def keywordHit (low : Chars) (kw : String) : Bool :=
  (findIter kw.data low).any (fun p => !has_negation low p)

/-- The keyword has a negated regex match in the lowercased sentence
(the condition under which `detect_intents` marks its category negated). -/
def keywordNegHit (low : Chars) (kw : String) : Bool :=
  (findIter kw.data low).any (fun p => has_negation low p)

/-- The categories map `detect_intents` produces, in closed form: one
entry per table category whose keyword list, filtered to the keywords
with a non-negated match, is non-empty. -/
def catsSpec (low : Chars) (tbl : List (String × CategoryData)) :
    List (String × List String) :=
  tbl.filterMap (fun e =>
    if (e.2.keywords.filter (keywordHit low)).isEmpty then none
    else some (e.1, e.2.keywords.filter (keywordHit low)))

/-- The negated-categories set `detect_intents` produces, in closed form. -/
def negSpec (low : Chars) (tbl : List (String × CategoryData)) (ns : List String) :
    List String :=
  tbl.foldl (fun ns e =>
    if e.2.keywords.any (keywordNegHit low) then addNegated ns e.1 else ns) ns

/-! ### Basic lemmas about the regex-matching embedding -/

theorem wordAt_of_ge {text : Chars} {j : Nat} (h : text.length ≤ j) :
    wordAt text j = false := by
  unfold wordAt
  rw [List.get?_eq_none.mpr h]

theorem matchAt_le {kw text : Chars} {i : Nat}
    (h : matchAt kw text i = true) : i ≤ text.length := by
  by_contra hgt
  push_neg at hgt
  have hb : boundaryAt text i = true := by
    unfold matchAt at h
    simp only [Bool.and_eq_true] at h
    exact h.1.2
  unfold boundaryAt at hb
  rw [if_neg (show ¬ i = 0 by omega)] at hb
  rw [wordAt_of_ge (by omega), wordAt_of_ge (by omega)] at hb
  simp at hb

theorem mem_findIterAux {kw text : Chars} :
    ∀ (fuel i p : Nat), p ∈ findIterAux kw text fuel i → matchAt kw text p = true := by
  intro fuel
  induction fuel with
  | zero => intro i p hp; simp [findIterAux] at hp
  | succ n ih =>
    intro i p hp
    unfold findIterAux at hp
    split at hp
    · rcases List.mem_cons.mp hp with h | h
      · subst h; assumption
      · exact ih _ _ h
    · exact ih _ _ hp

theorem findIterAux_eq_nil {kw text : Chars} (i₀ : Nat)
    (h : ∀ p, i₀ ≤ p → matchAt kw text p = false) :
    ∀ (fuel i : Nat), i₀ ≤ i → findIterAux kw text fuel i = [] := by
  intro fuel
  induction fuel with
  | zero => intro i _; rfl
  | succ n ih =>
    intro i hi
    unfold findIterAux
    rw [h i hi]
    simp only [Bool.false_eq_true, if_false]
    exact ih (i + 1) (by omega)

theorem findIter_eq_nil {kw text : Chars}
    (h : ∀ p, matchAt kw text p = false) : findIter kw text = [] :=
  findIterAux_eq_nil 0 (fun p _ => h p) (text.length + 1) 0 (Nat.zero_le 0)

theorem findIterAux_singleton {kw text : Chars} {p₀ : Nat}
    (hkw : kw ≠ [])
    (hp : matchAt kw text p₀ = true)
    (huniq : ∀ p, p ≠ p₀ → matchAt kw text p = false) :
    ∀ (fuel i : Nat), i ≤ p₀ → p₀ < i + fuel → findIterAux kw text fuel i = [p₀] := by
  intro fuel
  induction fuel with
  | zero => intro i h1 h2; omega
  | succ n ih =>
    intro i h1 h2
    by_cases he : i = p₀
    · subst he
      unfold findIterAux
      rw [hp]
      simp only [if_true]
      have hlen : 1 ≤ kw.length := by
        cases kw with
        | nil => exact absurd rfl hkw
        | cons c cs => simp
      have htail : findIterAux kw text n (i + kw.length) = [] :=
        findIterAux_eq_nil (i + 1) (fun p hp1 => huniq p (by omega)) n (i + kw.length)
          (by omega)
      rw [htail]
    · unfold findIterAux
      rw [huniq i he]
      simp only [Bool.false_eq_true, if_false]
      exact ih (i + 1) (by omega) (by omega)

theorem findIter_singleton {kw text : Chars} {p₀ : Nat}
    (hkw : kw ≠ [])
    (hp : matchAt kw text p₀ = true)
    (huniq : ∀ p, p ≠ p₀ → matchAt kw text p = false) :
    findIter kw text = [p₀] :=
  findIterAux_singleton hkw hp huniq (text.length + 1) 0 (Nat.zero_le p₀)
    (by have := matchAt_le hp; omega)

theorem searchWord_iff {kw text : Chars} :
    searchWord kw text = true ↔ ∃ i, matchAt kw text i = true := by
  unfold searchWord
  rw [List.any_eq_true]
  constructor
  · rintro ⟨i, _, hm⟩; exact ⟨i, hm⟩
  · rintro ⟨i, hm⟩
    exact ⟨i, List.mem_range.mpr (by have := matchAt_le hm; omega), hm⟩

/-! ### Generic list helpers -/

theorem any_eq_false_of {p : α → Bool} :
    ∀ l : List α, (∀ a ∈ l, p a = false) → l.any p = false := by
  intro l h
  cases hl : l.any p with
  | false => rfl
  | true =>
    obtain ⟨a, ha, hpa⟩ := List.any_eq_true.mp hl
    rw [h a ha] at hpa
    exact absurd hpa (by simp)

theorem filter_eq_nil_of_false {p : α → Bool} :
    ∀ l : List α, (∀ a ∈ l, p a = false) → l.filter p = [] := by
  intro l
  induction l with
  | nil => intro _; rfl
  | cons a l ih =>
    intro h
    rw [List.filter_cons, h a (List.mem_cons_self a l)]
    simp only [Bool.false_eq_true, if_false]
    exact ih (fun b hb => h b (List.mem_cons_of_mem a hb))

theorem filter_eq_singleton {p : α → Bool} {a : α} :
    ∀ l : List α, l.Nodup → a ∈ l → p a = true →
      (∀ b ∈ l, b ≠ a → p b = false) → l.filter p = [a] := by
  intro l
  induction l with
  | nil => intro _ ha; simp at ha
  | cons c l ih =>
    intro hnd hmem hpa hrest
    rcases List.mem_cons.mp hmem with h | h
    · subst h
      rw [List.filter_cons, hpa]
      simp only [if_true]
      have : l.filter p = [] := by
        apply filter_eq_nil_of_false
        intro b hb
        have hbne : b ≠ a := by
          intro he; subst he
          exact (List.nodup_cons.mp hnd).1 hb
        exact hrest b (List.mem_cons_of_mem a hb) hbne
      rw [this]
    · have hca : c ≠ a := by
        intro he; subst he
        exact (List.nodup_cons.mp hnd).1 h
      rw [List.filter_cons, hrest c (List.mem_cons_self c l) hca]
      simp only [Bool.false_eq_true, if_false]
      exact ih (List.nodup_cons.mp hnd).2 h hpa
        (fun b hb => hrest b (List.mem_cons_of_mem c hb))

theorem find?_none_append {p : α → Bool} :
    ∀ l₁ l₂ : List α, (∀ x ∈ l₁, p x = false) → (l₁ ++ l₂).find? p = l₂.find? p := by
  intro l₁
  induction l₁ with
  | nil => intro l₂ _; rfl
  | cons a l ih =>
    intro l₂ h
    rw [List.cons_append, List.find?_cons_of_neg _ (by rw [h a (List.mem_cons_self a l)]; simp)]
    exact ih l₂ (fun b hb => h b (List.mem_cons_of_mem a hb))

/-! ### The accumulator operations of `detect_intents` -/

theorem addNegated_idem (l : List String) (cat : String) :
    addNegated (addNegated l cat) cat = addNegated l cat := by
  unfold addNegated
  by_cases h : cat ∈ l
  · simp [h]
  · simp [h]

theorem addKeyword_idem (m : List (String × List String)) (cat kw : String) :
    addKeyword (addKeyword m cat kw) cat kw = addKeyword m cat kw := by
  induction m with
  | nil => simp [addKeyword]
  | cons e rest ih =>
    obtain ⟨c, kws⟩ := e
    by_cases hc : c = cat
    · subst hc
      by_cases hk : kw ∈ kws
      · simp [addKeyword, hk]
      · simp [addKeyword, hk]
    · simp [addKeyword, hc, ih]

theorem addKeyword_absent (m : List (String × List String)) (cat kw : String)
    (h : cat ∉ m.map Prod.fst) :
    addKeyword m cat kw = m ++ [(cat, [kw])] := by
  induction m with
  | nil => rfl
  | cons e rest ih =>
    obtain ⟨c, kws⟩ := e
    have hc : ¬ c = cat := by
      intro he; exact h (by simp [he])
    rw [show addKeyword ((c, kws) :: rest) cat kw = (c, kws) :: addKeyword rest cat kw from by
      simp [addKeyword, hc]]
    rw [ih (fun hm => h (by simp at hm ⊢; exact Or.inr hm))]
    rfl

theorem addKeyword_found (m : List (String × List String)) (cat : String)
    (l : List String) (kw : String) (h : cat ∉ m.map Prod.fst) :
    addKeyword (m ++ [(cat, l)]) cat kw =
      m ++ [(cat, if kw ∈ l then l else l ++ [kw])] := by
  induction m with
  | nil => simp [addKeyword]
  | cons e rest ih =>
    obtain ⟨c, kws⟩ := e
    have hc : ¬ c = cat := by
      intro he; exact h (by simp [he])
    rw [List.cons_append,
      show addKeyword ((c, kws) :: (rest ++ [(cat, l)])) cat kw =
        (c, kws) :: addKeyword (rest ++ [(cat, l)]) cat kw from by simp [addKeyword, hc]]
    rw [ih (fun hm => h (by simp at hm ⊢; exact Or.inr hm))]
    rfl

/-! ### Closed form of the three nested loops of `detect_intents` -/

theorem foldPositions (low : Chars) (cat kw : String) :
    ∀ (ps : List Nat) (a : String) (cs : List (String × List String))
      (ns : List String) (r : Chars),
    ps.foldl (applyMatch low cat kw) ⟨a, cs, ns, r⟩ =
      ⟨a,
       if ps.any (fun p => !has_negation low p) then addKeyword cs cat kw else cs,
       if ps.any (fun p => has_negation low p) then addNegated ns cat else ns,
       r⟩ := by
  intro ps
  induction ps with
  | nil => intro a cs ns r; simp
  | cons p ps ih =>
    intro a cs ns r
    rw [List.foldl_cons]
    by_cases h : has_negation low p
    · rw [show applyMatch low cat kw ⟨a, cs, ns, r⟩ p = ⟨a, cs, addNegated ns cat, r⟩ from by
        simp [applyMatch, h]]
      rw [ih]
      by_cases h2 : ps.any (fun q => has_negation low q) <;>
        simp [h, h2, addNegated_idem, List.any_cons]
    · rw [show applyMatch low cat kw ⟨a, cs, ns, r⟩ p = ⟨a, addKeyword cs cat kw, ns, r⟩ from by
        simp [applyMatch, h]]
      rw [ih]
      by_cases h2 : ps.any (fun q => !has_negation low q) <;>
        simp [h, h2, addKeyword_idem, List.any_cons]

theorem processKeyword_eq (low : Chars) (cat kw : String)
    (a : String) (cs : List (String × List String)) (ns : List String) (r : Chars) :
    processKeyword low cat ⟨a, cs, ns, r⟩ kw =
      ⟨a, if keywordHit low kw then addKeyword cs cat kw else cs,
          if keywordNegHit low kw then addNegated ns cat else ns, r⟩ := by
  unfold processKeyword keywordHit keywordNegHit
  exact foldPositions low cat kw (findIter kw.data low) a cs ns r

theorem foldKeywordsAcc (low : Chars) (cat : String) :
    ∀ (kws : List String) (a : String) (m : List (String × List String))
      (acc : List String) (ns : List String) (r : Chars),
    cat ∉ m.map Prod.fst →
    (∀ k ∈ kws, k ∉ acc) →
    kws.Nodup →
    kws.foldl (processKeyword low cat) ⟨a, m ++ [(cat, acc)], ns, r⟩ =
      ⟨a, m ++ [(cat, acc ++ kws.filter (keywordHit low))],
          if kws.any (keywordNegHit low) then addNegated ns cat else ns, r⟩ := by
  intro kws
  induction kws with
  | nil => intro a m acc ns r _ _ _; simp
  | cons kw rest ih =>
    intro a m acc ns r h1 h2 h3
    rw [List.foldl_cons, processKeyword_eq]
    have hknotin : kw ∉ acc := h2 kw (List.mem_cons_self kw rest)
    have h2' : ∀ k ∈ rest, k ∉ acc ++ [kw] := by
      intro k hk
      simp only [List.mem_append, List.mem_singleton]
      rintro (hin | heq)
      · exact h2 k (List.mem_cons_of_mem kw hk) hin
      · subst heq; exact (List.nodup_cons.mp h3).1 hk
    have h3' : rest.Nodup := (List.nodup_cons.mp h3).2
    by_cases hh : keywordHit low kw
    · rw [if_pos hh, addKeyword_found m cat acc kw h1, if_neg hknotin]
      rw [ih a m (acc ++ [kw]) _ r h1 h2' h3']
      rw [List.filter_cons_of_pos hh]
      by_cases h4 : keywordNegHit low kw <;>
        by_cases h5 : rest.any (keywordNegHit low) <;>
          simp [h4, h5, addNegated_idem, List.any_cons, List.append_assoc]
    · rw [if_neg hh]
      rw [ih a m acc _ r h1 (fun k hk => h2 k (List.mem_cons_of_mem kw hk)) h3']
      rw [List.filter_cons_of_neg (by simpa using hh)]
      by_cases h4 : keywordNegHit low kw <;>
        by_cases h5 : rest.any (keywordNegHit low) <;>
          simp [h4, h5, addNegated_idem, List.any_cons]

theorem foldKeywordsStart (low : Chars) (cat : String) :
    ∀ (kws : List String) (a : String) (m : List (String × List String))
      (ns : List String) (r : Chars),
    cat ∉ m.map Prod.fst →
    kws.Nodup →
    kws.foldl (processKeyword low cat) ⟨a, m, ns, r⟩ =
      ⟨a, if (kws.filter (keywordHit low)).isEmpty then m
          else m ++ [(cat, kws.filter (keywordHit low))],
          if kws.any (keywordNegHit low) then addNegated ns cat else ns, r⟩ := by
  intro kws
  induction kws with
  | nil => intro a m ns r _ _; simp
  | cons kw rest ih =>
    intro a m ns r h1 h3
    rw [List.foldl_cons, processKeyword_eq]
    have h3' : rest.Nodup := (List.nodup_cons.mp h3).2
    by_cases hh : keywordHit low kw
    · rw [if_pos hh, addKeyword_absent m cat kw h1]
      have h2' : ∀ k ∈ rest, k ∉ ([kw] : List String) := by
        intro k hk
        simp only [List.mem_singleton]
        intro heq; subst heq; exact (List.nodup_cons.mp h3).1 hk
      rw [foldKeywordsAcc low cat rest a m [kw] _ r h1 h2' h3']
      rw [List.filter_cons_of_pos hh]
      by_cases h4 : keywordNegHit low kw <;>
        by_cases h5 : rest.any (keywordNegHit low) <;>
          simp [h4, h5, addNegated_idem, List.any_cons]
    · rw [if_neg hh]
      rw [ih a m _ r h1 h3']
      rw [List.filter_cons_of_neg (by simpa using hh)]
      by_cases h4 : keywordNegHit low kw <;>
        by_cases h5 : rest.any (keywordNegHit low) <;>
          simp [h4, h5, addNegated_idem, List.any_cons]

theorem foldTable (low : Chars) :
    ∀ (tbl : List (String × CategoryData)) (a : String)
      (m : List (String × List String)) (ns : List String) (r : Chars),
    (∀ e ∈ tbl, e.1 ∉ m.map Prod.fst) →
    (tbl.map Prod.fst).Nodup →
    (∀ e ∈ tbl, e.2.keywords.Nodup) →
    tbl.foldl (processCategory low) ⟨a, m, ns, r⟩ =
      ⟨a, m ++ catsSpec low tbl, negSpec low tbl ns, r⟩ := by
  intro tbl
  induction tbl with
  | nil => intro a m ns r _ _ _; simp [catsSpec, negSpec]
  | cons e rest ih =>
    intro a m ns r h1 h2 h3
    rw [List.foldl_cons]
    rw [show processCategory low ⟨a, m, ns, r⟩ e =
        e.2.keywords.foldl (processKeyword low e.1) ⟨a, m, ns, r⟩ from rfl]
    rw [foldKeywordsStart low e.1 e.2.keywords a m ns r
      (h1 e (List.mem_cons_self e rest)) (h3 e (List.mem_cons_self e rest))]
    have h2' : (rest.map Prod.fst).Nodup := (List.nodup_cons.mp (by simpa using h2)).2
    have h3' : ∀ x ∈ rest, x.2.keywords.Nodup :=
      fun x hx => h3 x (List.mem_cons_of_mem e hx)
    by_cases hemp : (e.2.keywords.filter (keywordHit low)).isEmpty
    · rw [if_pos hemp]
      rw [ih a m _ r (fun x hx => h1 x (List.mem_cons_of_mem e hx)) h2' h3']
      have hcs : catsSpec low (e :: rest) = catsSpec low rest := by
        unfold catsSpec
        rw [List.filterMap_cons]
        simp [hemp]
      have hns : negSpec low (e :: rest)
          ns = negSpec low rest
            (if e.2.keywords.any (keywordNegHit low) then addNegated ns e.1 else ns) := by
        unfold negSpec
        rw [List.foldl_cons]
      rw [hcs, hns]
    · rw [if_neg hemp]
      have h1' : ∀ x ∈ rest, x.1 ∉
          (m ++ [(e.1, e.2.keywords.filter (keywordHit low))]).map Prod.fst := by
        intro x hx
        rw [List.map_append, List.mem_append]
        rintro (hin | hin)
        · exact h1 x (List.mem_cons_of_mem e hx) hin
        · simp only [List.map_cons, List.map_nil, List.mem_singleton] at hin
          have : e.1 ∈ rest.map Prod.fst := hin ▸ List.mem_map_of_mem Prod.fst hx
          exact (List.nodup_cons.mp (by simpa using h2)).1 this
      rw [ih a _ _ r h1' h2' h3']
      have hcs : catsSpec low (e :: rest) =
          (e.1, e.2.keywords.filter (keywordHit low)) :: catsSpec low rest := by
        unfold catsSpec
        rw [List.filterMap_cons]
        simp [hemp]
      have hns : negSpec low (e :: rest)
          ns = negSpec low rest
            (if e.2.keywords.any (keywordNegHit low) then addNegated ns e.1 else ns) := by
        unfold negSpec
        rw [List.foldl_cons]
      rw [hcs, hns, List.append_assoc]
      rfl

/-- `detect_intents` in closed form. -/
theorem detect_intents_eq (s : Chars) :
    detect_intents s =
      ⟨extract_action s, catsSpec (lowerStr s) INTENT_CATEGORIES,
        negSpec (lowerStr s) INTENT_CATEGORIES [], s⟩ := by
  have h2 : (INTENT_CATEGORIES.map Prod.fst).Nodup := by decide
  have h3 : ∀ e ∈ INTENT_CATEGORIES, e.2.keywords.Nodup := by decide
  exact foldTable (lowerStr s) INTENT_CATEGORIES (extract_action s) [] [] s
    (by simp) h2 h3

theorem negSpec_eq_of_none (low : Chars) :
    ∀ (tbl : List (String × CategoryData)) (ns : List String),
    (∀ e ∈ tbl, e.2.keywords.any (keywordNegHit low) = false) →
    negSpec low tbl ns = ns := by
  intro tbl
  induction tbl with
  | nil => intro ns _; rfl
  | cons e rest ih =>
    intro ns h
    unfold negSpec
    rw [List.foldl_cons, h e (List.mem_cons_self e rest)]
    simp only [Bool.false_eq_true, if_false]
    exact ih ns (fun x hx => h x (List.mem_cons_of_mem e hx))

/-! ### Well-formedness of the lexicon, and projections of the closed form -/

theorem tableKeywordsNonempty :
    ∀ e ∈ INTENT_CATEGORIES, ∀ k ∈ e.2.keywords, k.data ≠ [] := by decide

theorem tableKeywordsNodup :
    ∀ e ∈ INTENT_CATEGORIES, e.2.keywords.Nodup := by decide

theorem detect_categories_eq (s : Chars) :
    (detect_intents s).categories = catsSpec (lowerStr s) INTENT_CATEGORIES := by
  rw [detect_intents_eq]

theorem detect_negated_eq (s : Chars) :
    (detect_intents s).negated_categories =
      negSpec (lowerStr s) INTENT_CATEGORIES [] := by
  rw [detect_intents_eq]

theorem filterMap_eq_nil_of {f : α → Option β} :
    ∀ l : List α, (∀ a ∈ l, f a = none) → l.filterMap f = [] := by
  intro l
  induction l with
  | nil => intro _; rfl
  | cons a l ih =>
    intro h
    rw [List.filterMap_cons, h a (List.mem_cons_self a l)]
    exact ih (fun b hb => h b (List.mem_cons_of_mem a hb))

/-! ### Claim theorems -/

/-- C1 counterexample: in the sentence `"no x x x x x vpc"` the cue `"no"`
sits six whitespace-tokens before the keyword `"vpc"` (which starts at
offset 13), so `has_negation` does NOT mark the occurrence negated,
contrary to the claim's example. -/
theorem claim_C1_counterexample :
    has_negation "no x x x x x vpc".data 13 = false := by decide

/-- C1 amended: a keyword occurrence is negated exactly when a negation
cue lies within the five whitespace-tokens preceding the keyword's start;
a cue at token-distance 5 negates (`"no x x x x vpc"`), while a cue at
token-distance 6 (`"no x x x x x vpc"`) or 7 (`"no x x x x x x vpc"`)
does not. -/
theorem claim_C1_amended :
    (∀ (text : Chars) (pos : Nat),
      has_negation text pos = true ↔
        ∃ w ∈ lastN (splitWs (text.take pos)) 5, hasCue w = true) ∧
    has_negation "no x x x x vpc".data 11 = true ∧
    has_negation "no x x x x x vpc".data 13 = false ∧
    has_negation "no x x x x x x vpc".data 15 = false := by
  refine ⟨?_, by decide, by decide, by decide⟩
  intro text pos
  unfold has_negation
  exact List.any_eq_true

/-- C2: `validate_intent` is a pure predicate returning false exactly when
the categories mapping is empty or some category name lies both in
`categories` and in `negated_categories`; it inspects its argument only
(being a Lean function it cannot mutate it). -/
theorem claim_C2 (d : Detected) :
    validate_intent d = false ↔
      d.categories = [] ∨
        ∃ c, c ∈ d.negated_categories ∧ c ∈ d.categories.map Prod.fst := by
  unfold validate_intent
  cases hany : d.negated_categories.any (fun c => (d.categories.map Prod.fst).contains c) with
  | true =>
    simp only [hany, if_true]
    constructor
    · intro _
      obtain ⟨c, hc, hcont⟩ := List.any_eq_true.mp hany
      exact Or.inr ⟨c, hc, by simpa using hcont⟩
    · intro _; trivial
  | false =>
    simp only [hany, Bool.false_eq_true, if_false]
    cases hemp : d.categories.isEmpty with
    | true =>
      simp only [hemp, if_true]
      constructor
      · intro _
        exact Or.inl (List.isEmpty_iff.mp hemp)
      · intro _; trivial
    | false =>
      simp only [hemp, Bool.false_eq_true, if_false]
      constructor
      · intro h; exact absurd h (by simp)
      · rintro (h | ⟨c, hc1, hc2⟩)
        · rw [h] at hemp; simp at hemp
        · have : d.negated_categories.any
              (fun c => (d.categories.map Prod.fst).contains c) = true :=
            List.any_eq_true.mpr ⟨c, hc1, by simpa using hc2⟩
          rw [hany] at this
          exact absurd this (by simp)

/-- C3: `extract_action` returns the kind of the first lexicon-declared
action with a whole-word verb match (so a create verb beats a delete verb
regardless of textual order), and returns `"create"` when no verb
matches. -/
theorem claim_C3 :
    (∀ s : Chars,
      (∀ e ∈ ACTION_VERBS, ∀ v ∈ e.2, searchWord v.data (lowerStr s) = false) →
      extract_action s = "create") ∧
    (∀ (s : Chars) (vs : List String) (v : String),
      ("create", vs) ∈ ACTION_VERBS → v ∈ vs →
      searchWord v.data (lowerStr s) = true →
      extract_action s = "create") ∧
    (∀ (s : Chars) (t₁ : List (String × List String)) (a : String)
        (vs : List String) (t₂ : List (String × List String)),
      ACTION_VERBS = t₁ ++ (a, vs) :: t₂ →
      (∀ e ∈ t₁, ∀ v ∈ e.2, searchWord v.data (lowerStr s) = false) →
      (∃ v ∈ vs, searchWord v.data (lowerStr s) = true) →
      extract_action s = a) ∧
    extract_action "remove it and then deploy it".data = "create" := by
  have hfirst : ∀ (s : Chars) (t₁ : List (String × List String)) (a : String)
      (vs : List String) (t₂ : List (String × List String)),
      ACTION_VERBS = t₁ ++ (a, vs) :: t₂ →
      (∀ e ∈ t₁, ∀ v ∈ e.2, searchWord v.data (lowerStr s) = false) →
      (∃ v ∈ vs, searchWord v.data (lowerStr s) = true) →
      extract_action s = a := by
    intro s t₁ a vs t₂ heq h1 h2
    have hrfl : extract_action s =
        match ACTION_VERBS.find?
          (fun e => e.2.any (fun v => searchWord v.data (lowerStr s))) with
        | some e => e.1
        | none => "create" := rfl
    rw [hrfl, heq,
      find?_none_append t₁ ((a, vs) :: t₂)
        (fun e he => any_eq_false_of e.2 (fun v hv => h1 e he v hv))]
    have hstep : List.find?
        (fun e => e.2.any (fun v => searchWord v.data (lowerStr s)))
        ((a, vs) :: t₂) = some (a, vs) := by
      apply List.find?_cons_of_pos
      exact List.any_eq_true.mpr h2
    rw [hstep]
  refine ⟨?_, ?_, hfirst, by decide⟩
  · intro s h
    have hrfl : extract_action s =
        match ACTION_VERBS.find?
          (fun e => e.2.any (fun v => searchWord v.data (lowerStr s))) with
        | some e => e.1
        | none => "create" := rfl
    rw [hrfl,
      show ACTION_VERBS.find?
          (fun e => e.2.any (fun v => searchWord v.data (lowerStr s))) =
        (ACTION_VERBS ++ []).find?
          (fun e => e.2.any (fun v => searchWord v.data (lowerStr s))) from by
        rw [List.append_nil],
      find?_none_append ACTION_VERBS []
        (fun e he => any_eq_false_of e.2 (fun v hv => h e he v hv))]
    rfl
  · intro s vs v hmem hv hs
    have hvs : vs = ["create", "deploy", "launch", "provision", "setup",
        "set up", "add", "build"] := by
      simp only [ACTION_VERBS, List.mem_cons, List.not_mem_nil, or_false,
        Prod.mk.injEq] at hmem
      rcases hmem with ⟨-, h2⟩ | ⟨h1, -⟩ | ⟨h1, -⟩ | ⟨h1, -⟩
      · exact h2
      · exact absurd h1 (by decide)
      · exact absurd h1 (by decide)
      · exact absurd h1 (by decide)
    subst hvs
    exact hfirst s [] "create"
      ["create", "deploy", "launch", "provision", "setup", "set up", "add", "build"]
      [("delete", ["delete", "remove", "destroy", "terminate", "tear down"]),
       ("modify", ["modify", "update", "change", "edit", "configure"]),
       ("query", ["show", "list", "describe", "get", "what", "which"])]
      rfl (by simp) ⟨v, hv, hs⟩

/-- C3 witness: the three quantified parts applied at concrete sentences
with their hypotheses discharged by evaluation. -/
theorem claim_C3_witness :
    extract_action "xyz abc".data = "create" ∧
    extract_action "deploy stuff".data = "create" ∧
    extract_action "remove the vpc".data = "delete" :=
  ⟨claim_C3.1 "xyz abc".data (by decide),
   claim_C3.2.1 "deploy stuff".data
     ["create", "deploy", "launch", "provision", "setup", "set up", "add", "build"]
     "deploy" (by decide) (by decide) (by decide),
   claim_C3.2.2.1 "remove the vpc".data
     [("create", ["create", "deploy", "launch", "provision", "setup", "set up",
                  "add", "build"])]
     "delete" ["delete", "remove", "destroy", "terminate", "tear down"]
     [("modify", ["modify", "update", "change", "edit", "configure"]),
      ("query", ["show", "list", "describe", "get", "what", "which"])]
     rfl (by decide) (by decide)⟩

/-- C4: the round-trip scenario for
`"Deploy a small Ubuntu server on AWS with MySQL"`. -/
theorem claim_C4 :
    (detect_intents "Deploy a small Ubuntu server on AWS with MySQL".data).action
      = "create" ∧
    List.lookup "compute"
      (detect_intents "Deploy a small Ubuntu server on AWS with MySQL".data).categories
      = some ["server", "small"] ∧
    List.lookup "os"
      (detect_intents "Deploy a small Ubuntu server on AWS with MySQL".data).categories
      = some ["ubuntu"] ∧
    List.lookup "provider"
      (detect_intents "Deploy a small Ubuntu server on AWS with MySQL".data).categories
      = some ["aws"] ∧
    List.lookup "database"
      (detect_intents "Deploy a small Ubuntu server on AWS with MySQL".data).categories
      = some ["mysql"] ∧
    (detect_intents "Deploy a small Ubuntu server on AWS with MySQL".data).negated_categories
      = [] ∧
    validate_intent (detect_intents "Deploy a small Ubuntu server on AWS with MySQL".data)
      = true ∧
    normalize_provider (detect_intents "Deploy a small Ubuntu server on AWS with MySQL".data)
      = some "aws" ∧
    extract_os (detect_intents "Deploy a small Ubuntu server on AWS with MySQL".data)
      = some "Ubuntu" := by
  have hd : detect_intents "Deploy a small Ubuntu server on AWS with MySQL".data =
      ⟨"create",
       [("compute", ["server", "small"]), ("database", ["mysql"]),
        ("provider", ["aws"]), ("os", ["ubuntu"])],
       [], "Deploy a small Ubuntu server on AWS with MySQL".data⟩ := by decide
  refine ⟨?_, ?_, ?_, ?_, ?_, ?_, ?_, ?_, ?_⟩ <;> rw [hd] <;> decide

/-- C6 counterexample: the sentence `"deploy on amazon"` contains the
substring `"amazon"`, yet no provider keyword of the lexicon matches (the
bare word `"amazon"` is not a provider keyword), so `normalize_provider`
returns `none` rather than `"aws"`. -/
theorem claim_C6_counterexample :
    containsSub "amazon".data (lowerStr "deploy on amazon".data) = true ∧
    normalize_provider (detect_intents "deploy on amazon".data) = none :=
  ⟨by decide, by decide⟩

/-- C6 amended: `normalize_provider` maps the first matched provider
keyword to one of `aws`/`azure`/`gcp` by substring containment on the
aliases, and returns `none` when no provider category was detected, the
keyword list is empty, or no alias matches; sentences containing
`"amazon web services"` or `"aws"` normalize to `"aws"`, while the bare
word `"amazon"` is not a provider keyword and yields no provider. -/
theorem claim_C6_amended :
    (∀ d : Detected, List.lookup "provider" d.categories = none →
      normalize_provider d = none) ∧
    (∀ d : Detected, List.lookup "provider" d.categories = some [] →
      normalize_provider d = none) ∧
    (∀ (d : Detected) (k : String) (rest : List String),
      List.lookup "provider" d.categories = some (k :: rest) →
      (containsSub "aws".data (lowerStr k.data) ||
        containsSub "amazon".data (lowerStr k.data)) = true →
      normalize_provider d = some "aws") ∧
    (∀ (d : Detected) (k : String) (rest : List String),
      List.lookup "provider" d.categories = some (k :: rest) →
      containsSub "aws".data (lowerStr k.data) = false →
      containsSub "amazon".data (lowerStr k.data) = false →
      containsSub "azure".data (lowerStr k.data) = false →
      containsSub "microsoft".data (lowerStr k.data) = false →
      containsSub "gcp".data (lowerStr k.data) = false →
      containsSub "google".data (lowerStr k.data) = false →
      normalize_provider d = none) ∧
    normalize_provider (detect_intents "deploy on aws".data) = some "aws" ∧
    normalize_provider (detect_intents "deploy on amazon web services".data)
      = some "aws" ∧
    normalize_provider (detect_intents "deploy on microsoft azure".data)
      = some "azure" ∧
    normalize_provider (detect_intents "deploy on google cloud".data)
      = some "gcp" ∧
    normalize_provider (detect_intents "create a server".data) = none := by
  refine ⟨?_, ?_, ?_, ?_, by decide, by decide, by decide, by decide, by decide⟩
  · intro d h
    unfold normalize_provider
    rw [h]
  · intro d h
    unfold normalize_provider
    rw [h]
  · intro d k rest h hsub
    unfold normalize_provider
    rw [h]
    simp only [hsub, if_true]
  · intro d k rest h h1 h2 h3 h4 h5 h6
    unfold normalize_provider
    rw [h]
    simp only [h1, h2, h3, h4, h5, h6, Bool.or_self, Bool.false_eq_true, if_false]

/-- C6 witness: the lookup-is-none rule applied at a concrete detection
result. -/
theorem claim_C6_witness :
    normalize_provider (detect_intents "build a vpc".data) = none :=
  claim_C6_amended.1 (detect_intents "build a vpc".data) (by decide)

/-- C7 counterexample: in `"ubuntu rhel"` the detected os category is
`["ubuntu", "rhel"]` — it contains `"rhel"` — yet `extract_os` returns
`"Ubuntu"` (it maps only the FIRST keyword), contradicting the claim that
a result whose os category contains `"rhel"` yields `"RHEL"`. -/
theorem claim_C7_counterexample :
    List.lookup "os" (detect_intents "ubuntu rhel".data).categories =
      some ["ubuntu", "rhel"] ∧
    extract_os (detect_intents "ubuntu rhel".data) = some "Ubuntu" :=
  ⟨by decide, by decide⟩

/-- C7 amended: `extract_os` returns `none` when no os category was
detected (or its keyword list is empty), and otherwise maps the FIRST
detected os keyword: `"rhel"` to `"RHEL"`, `"amazon linux"` to
`"Amazon Linux"`, anything else to its capitalization
(e.g. `"ubuntu"` to `"Ubuntu"`). -/
theorem claim_C7_amended :
    (∀ d : Detected, List.lookup "os" d.categories = none → extract_os d = none) ∧
    (∀ d : Detected, List.lookup "os" d.categories = some [] → extract_os d = none) ∧
    (∀ (d : Detected) (rest : List String),
      List.lookup "os" d.categories = some ("rhel" :: rest) →
      extract_os d = some "RHEL") ∧
    (∀ (d : Detected) (rest : List String),
      List.lookup "os" d.categories = some ("amazon linux" :: rest) →
      extract_os d = some "Amazon Linux") ∧
    (∀ (d : Detected) (os₀ : String) (rest : List String),
      List.lookup "os" d.categories = some (os₀ :: rest) →
      os₀ ≠ "amazon linux" → os₀ ≠ "rhel" →
      extract_os d = some (String.mk (capitalize os₀.data))) ∧
    extract_os (detect_intents "rhel".data) = some "RHEL" ∧
    extract_os (detect_intents "amazon linux".data) = some "Amazon Linux" ∧
    extract_os (detect_intents "deploy ubuntu".data) = some "Ubuntu" := by
  refine ⟨?_, ?_, ?_, ?_, ?_, by decide, by decide, by decide⟩
  · intro d h
    unfold extract_os
    rw [h]
  · intro d h
    unfold extract_os
    rw [h]
  · intro d rest h
    unfold extract_os
    rw [h]
    show (if ("rhel" : String) = "amazon linux" then some "Amazon Linux"
          else if ("rhel" : String) = "rhel" then some "RHEL"
          else some (String.mk (capitalize "rhel".data))) = some "RHEL"
    rw [if_neg (by decide), if_pos rfl]
  · intro d rest h
    unfold extract_os
    rw [h]
    show (if ("amazon linux" : String) = "amazon linux" then some "Amazon Linux"
          else if ("amazon linux" : String) = "rhel" then some "RHEL"
          else some (String.mk (capitalize "amazon linux".data)))
        = some "Amazon Linux"
    rw [if_pos rfl]
  · intro d os₀ rest h h1 h2
    unfold extract_os
    rw [h]
    show (if os₀ = "amazon linux" then some "Amazon Linux"
          else if os₀ = "rhel" then some "RHEL"
          else some (String.mk (capitalize os₀.data)))
        = some (String.mk (capitalize os₀.data))
    rw [if_neg h1, if_neg h2]

/-- C7 witness: the first-keyword-rhel rule applied at a concrete
detection result. -/
theorem claim_C7_witness :
    extract_os (detect_intents "rhel server".data) = some "RHEL" :=
  claim_C7_amended.2.2.1 (detect_intents "rhel server".data) [] (by decide)

/-- C10: a token of the five-token window triggers negation whenever some
negation cue occurs anywhere inside the token at word boundaries — so a
cue with attached punctuation (`"not,"`) or separators (`"no-database"`)
negates, while a cue embedded without word boundaries (`"cannot"`) does
not. -/
theorem claim_C10 :
    (∀ w : Chars, hasCue w = true ↔
      ∃ cue ∈ NEGATION_CUES, ∃ i, matchAt cue (lowerStr w) i = true) ∧
    hasCue "not,".data = true ∧
    hasCue "no-database".data = true ∧
    hasCue "cannot".data = false ∧
    has_negation "not, vpc".data 5 = true ∧
    has_negation "no-database vpc".data 12 = true ∧
    has_negation "cannot vpc".data 7 = false := by
  refine ⟨?_, by decide, by decide, by decide, by decide, by decide, by decide⟩
  intro w
  unfold hasCue
  rw [List.any_eq_true]
  constructor
  · rintro ⟨cue, hc, hs⟩
    exact ⟨cue, hc, searchWord_iff.mp hs⟩
  · rintro ⟨cue, hc, hex⟩
    exact ⟨cue, hc, searchWord_iff.mpr hex⟩

/-- C5: a sentence with exactly one (non-negated) keyword occurrence from
exactly one category yields exactly that keyword under that category and
an empty negated set; keyword matching uses word-boundary semantics, so
`"db"` occurring only inside `"adbc"` produces no match at all. -/
theorem claim_C5 :
    (∀ (s : Chars) (cat₀ : String) (data₀ : CategoryData) (kw₀ : String) (p₀ : Nat),
      (cat₀, data₀) ∈ INTENT_CATEGORIES →
      kw₀ ∈ data₀.keywords →
      matchAt kw₀.data (lowerStr s) p₀ = true →
      has_negation (lowerStr s) p₀ = false →
      (∀ e ∈ INTENT_CATEGORIES, ∀ kw ∈ e.2.keywords,
        ∀ p ≤ (lowerStr s).length, matchAt kw.data (lowerStr s) p = true →
          e = (cat₀, data₀) ∧ kw = kw₀ ∧ p = p₀) →
      (detect_intents s).categories = [(cat₀, [kw₀])] ∧
      (detect_intents s).negated_categories = []) ∧
    (detect_intents "adbc".data).categories = [] := by
  refine ⟨?_, by decide⟩
  intro s cat₀ data₀ kw₀ p₀ hmem hkw hmatch hneg huniq
  have huniq' : ∀ e ∈ INTENT_CATEGORIES, ∀ kw ∈ e.2.keywords,
      ∀ p, matchAt kw.data (lowerStr s) p = true →
        e = (cat₀, data₀) ∧ kw = kw₀ ∧ p = p₀ := by
    intro e he kw hkw' p hm
    exact huniq e he kw hkw' p (matchAt_le hm) hm
  have hkwne : kw₀.data ≠ [] :=
    tableKeywordsNonempty (cat₀, data₀) hmem kw₀ hkw
  have hfi₀ : findIter kw₀.data (lowerStr s) = [p₀] := by
    apply findIter_singleton hkwne hmatch
    intro p hp
    cases hm : matchAt kw₀.data (lowerStr s) p with
    | false => rfl
    | true => exact absurd (huniq' (cat₀, data₀) hmem kw₀ hkw p hm).2.2 hp
  have hother : ∀ e ∈ INTENT_CATEGORIES, ∀ kw ∈ e.2.keywords,
      (¬ e = (cat₀, data₀) ∨ ¬ kw = kw₀) →
      findIter kw.data (lowerStr s) = [] := by
    intro e he kw hkw' hne
    apply findIter_eq_nil
    intro p
    cases hm : matchAt kw.data (lowerStr s) p with
    | false => rfl
    | true =>
      obtain ⟨h1, h2, -⟩ := huniq' e he kw hkw' p hm
      rcases hne with hne | hne
      · exact absurd h1 hne
      · exact absurd h2 hne
  have hhit₀ : keywordHit (lowerStr s) kw₀ = true := by
    unfold keywordHit
    rw [hfi₀]
    simp [hneg]
  have hnegs : (detect_intents s).negated_categories = [] := by
    rw [detect_negated_eq]
    apply negSpec_eq_of_none
    intro e he
    apply any_eq_false_of
    intro kw hkw'
    by_cases hne : kw = kw₀
    · subst hne
      unfold keywordNegHit
      rw [hfi₀]
      simp [hneg]
    · unfold keywordNegHit
      rw [hother e he kw hkw' (Or.inr hne)]
      rfl
  refine ⟨?_, hnegs⟩
  rw [detect_categories_eq]
  obtain ⟨t₁, t₂, hsplit⟩ := List.append_of_mem hmem
  have hnd : (INTENT_CATEGORIES.map Prod.fst).Nodup := by decide
  rw [hsplit, List.map_append, List.map_cons] at hnd
  obtain ⟨hnd₁, hnd₂, hdisj⟩ := List.nodup_append.mp hnd
  have hne₁ : ∀ e ∈ t₁, ¬ e = (cat₀, data₀) := by
    intro e he heq
    have hm1 : e.1 ∈ t₁.map Prod.fst := List.mem_map_of_mem Prod.fst he
    have hm2 : (e.1 : String) ∈ cat₀ :: t₂.map Prod.fst := by
      rw [congrArg Prod.fst heq]
      exact List.mem_cons_self _ _
    exact hdisj hm1 hm2
  have hne₂ : ∀ e ∈ t₂, ¬ e = (cat₀, data₀) := by
    intro e he heq
    have hm1 : e.1 ∈ t₂.map Prod.fst := List.mem_map_of_mem Prod.fst he
    rw [congrArg Prod.fst heq] at hm1
    exact (List.nodup_cons.mp hnd₂).1 hm1
  have hsub₁ : ∀ e ∈ t₁, e ∈ INTENT_CATEGORIES := by
    intro e he
    rw [hsplit]
    exact List.mem_append.mpr (Or.inl he)
  have hsub₂ : ∀ e ∈ t₂, e ∈ INTENT_CATEGORIES := by
    intro e he
    rw [hsplit]
    exact List.mem_append.mpr (Or.inr (List.mem_cons_of_mem _ he))
  have hnilfun : ∀ tl : List (String × CategoryData),
      (∀ e ∈ tl, e ∈ INTENT_CATEGORIES) → (∀ e ∈ tl, ¬ e = (cat₀, data₀)) →
      tl.filterMap (fun e =>
        if (e.2.keywords.filter (keywordHit (lowerStr s))).isEmpty then none
        else some (e.1, e.2.keywords.filter (keywordHit (lowerStr s)))) = [] := by
    intro tl hin hne
    apply filterMap_eq_nil_of
    intro e he
    have hfil : e.2.keywords.filter (keywordHit (lowerStr s)) = [] := by
      apply filter_eq_nil_of_false
      intro kw hkw'
      unfold keywordHit
      rw [hother e (hin e he) kw hkw' (Or.inl (hne e he))]
      rfl
    rw [hfil]
    rfl
  have hfil₀ : data₀.keywords.filter (keywordHit (lowerStr s)) = [kw₀] := by
    apply filter_eq_singleton data₀.keywords
      (tableKeywordsNodup (cat₀, data₀) hmem) hkw hhit₀
    intro b hb hbne
    unfold keywordHit
    rw [hother (cat₀, data₀) hmem b hb (Or.inr hbne)]
    rfl
  unfold catsSpec
  rw [hsplit, List.filterMap_append, hnilfun t₁ hsub₁ hne₁]
  have hmid : (if ((cat₀, data₀).2.keywords.filter (keywordHit (lowerStr s))).isEmpty
        then none
        else some ((cat₀, data₀).1,
          (cat₀, data₀).2.keywords.filter (keywordHit (lowerStr s))))
      = some (cat₀, [kw₀]) := by
    show (if (data₀.keywords.filter (keywordHit (lowerStr s))).isEmpty then none
          else some (cat₀, data₀.keywords.filter (keywordHit (lowerStr s))))
        = some (cat₀, [kw₀])
    rw [hfil₀]
    rfl
  have hconsEq : List.filterMap (fun e : String × CategoryData =>
      if (e.2.keywords.filter (keywordHit (lowerStr s))).isEmpty then none
      else some (e.1, e.2.keywords.filter (keywordHit (lowerStr s))))
        ((cat₀, data₀) :: t₂)
      = (cat₀, [kw₀]) :: List.filterMap (fun e : String × CategoryData =>
          if (e.2.keywords.filter (keywordHit (lowerStr s))).isEmpty then none
          else some (e.1, e.2.keywords.filter (keywordHit (lowerStr s)))) t₂ := by
    rw [List.filterMap_cons, hmid]
  rw [hconsEq, hnilfun t₂ hsub₂ hne₂]
  rfl

/-- C5 witness: the sentence `"centos"` has exactly one keyword
occurrence — the os keyword `"centos"` at offset 0 — with no negation
cue. -/
theorem claim_C5_witness :
    (detect_intents "centos".data).categories = [("os", ["centos"])] ∧
    (detect_intents "centos".data).negated_categories = [] :=
  claim_C5.1 "centos".data "os"
    ⟨["ubuntu", "windows", "amazon linux", "centos", "rhel", "debian", "fedora"], []⟩
    "centos" 0 (by decide) (by decide) (by decide) (by decide) (by decide)

/-- C8: `detect_intents` is total (the embedding is a plain function, so
no input raises); for every sentence in which no lexicon keyword has a
word-boundary match — including the empty and whitespace-only sentences —
the categories map and the negated set are empty and `validate_intent`
returns false. -/
theorem claim_C8 :
    (∀ s : Chars,
      (∀ e ∈ INTENT_CATEGORIES, ∀ kw ∈ e.2.keywords,
        ∀ p ≤ (lowerStr s).length, matchAt kw.data (lowerStr s) p = false) →
      (detect_intents s).categories = [] ∧
      (detect_intents s).negated_categories = [] ∧
      validate_intent (detect_intents s) = false) ∧
    (detect_intents "".data).categories = [] ∧
    validate_intent (detect_intents "".data) = false ∧
    (detect_intents "   ".data).categories = [] ∧
    validate_intent (detect_intents "   ".data) = false := by
  refine ⟨?_, by decide, by decide, by decide, by decide⟩
  intro s h
  have hfind : ∀ e ∈ INTENT_CATEGORIES, ∀ kw ∈ e.2.keywords,
      findIter kw.data (lowerStr s) = [] := by
    intro e he kw hkw
    apply findIter_eq_nil
    intro p
    by_cases hp : p ≤ (lowerStr s).length
    · exact h e he kw hkw p hp
    · cases hm : matchAt kw.data (lowerStr s) p with
      | false => rfl
      | true => exact absurd (matchAt_le hm) hp
  have hcats : (detect_intents s).categories = [] := by
    rw [detect_categories_eq]
    apply filterMap_eq_nil_of
    intro e he
    have hfil : e.2.keywords.filter (keywordHit (lowerStr s)) = [] := by
      apply filter_eq_nil_of_false
      intro kw hkw
      unfold keywordHit
      rw [hfind e he kw hkw]
      rfl
    rw [hfil]
    rfl
  have hnegs : (detect_intents s).negated_categories = [] := by
    rw [detect_negated_eq]
    apply negSpec_eq_of_none
    intro e he
    apply any_eq_false_of
    intro kw hkw
    unfold keywordNegHit
    rw [hfind e he kw hkw]
    rfl
  refine ⟨hcats, hnegs, ?_⟩
  unfold validate_intent
  rw [hcats]
  have hany : (detect_intents s).negated_categories.any
      (fun c => (([] : List (String × List String)).map Prod.fst).contains c)
      = false :=
    any_eq_false_of _ (fun c _ => rfl)
  rw [hany]
  rfl

/-- C8 witness: the quantified part applied at the keyword-free sentence
`"hello world"`. -/
theorem claim_C8_witness :
    (detect_intents "hello world".data).categories = [] ∧
    (detect_intents "hello world".data).negated_categories = [] ∧
    validate_intent (detect_intents "hello world".data) = false :=
  claim_C8.1 "hello world".data (by decide)

/-- C9: for every sentence, every keyword list in the produced categories
map is ordered by (is an order-preserving sublist of) the declared
keyword table of its category, not by textual occurrence; in particular
`"mysql database"` yields the database list `["database", "mysql"]`
although `"mysql"` occurs first in the text. -/
theorem claim_C9 :
    (∀ (s : Chars) (cat : String) (l : List String),
      (cat, l) ∈ (detect_intents s).categories →
      ∃ data : CategoryData, (cat, data) ∈ INTENT_CATEGORIES ∧
        List.Sublist l data.keywords) ∧
    List.lookup "database" (detect_intents "mysql database".data).categories =
      some ["database", "mysql"] := by
  constructor
  · intro s cat l hmem
    rw [detect_categories_eq] at hmem
    unfold catsSpec at hmem
    obtain ⟨e, he, hsome⟩ := List.mem_filterMap.mp hmem
    by_cases hemp : (e.2.keywords.filter (keywordHit (lowerStr s))).isEmpty
    · rw [if_pos hemp] at hsome
      exact absurd hsome (by simp)
    · rw [if_neg hemp] at hsome
      have hpair := Option.some.inj hsome
      have hc : e.1 = cat := congrArg Prod.fst hpair
      have hl : e.2.keywords.filter (keywordHit (lowerStr s)) = l :=
        congrArg Prod.snd hpair
      refine ⟨e.2, ?_, ?_⟩
      · rw [← hc, Prod.mk.eta]
        exact he
      · rw [← hl]
        exact List.filter_sublist e.2.keywords
  · decide

/-- C9 witness: the quantified part applied at the sentence `"vpc"` and
its networking entry. -/
theorem claim_C9_witness :
    (("networking", ["vpc"]) ∈ (detect_intents "vpc".data).categories) ∧
    ∃ data : CategoryData, ("networking", data) ∈ INTENT_CATEGORIES ∧
      List.Sublist ["vpc"] data.keywords :=
  ⟨by decide, claim_C9.1 "vpc".data "networking" ["vpc"] (by decide)⟩

end SpeakInfra
